import Mathlib

/-!
Verification of the streaming export benchmark's format-encoding layer.

The source under study is a Node.js program with four stream formatters
(CSV, JSON, XML, Parquet) built over a shared value normalizer
(prepareValue), wired by a pipeline harness (measureExport).  This file
gives a shallow embedding of those functions and proves the specified
properties about them.

Conventions of the embedding:
- A JavaScript value is modelled by the inductive type JsValue.  Finite
  numbers are modelled by integers; the non-finite doubles NaN and
  the two infinities get their own constructors because JSON.stringify treats
  them specially.  A circular object graph cannot be built inductively,
  so the constructor JsValue.circular marks a value on which
  JSON.stringify throws a TypeError.
- A thrown JavaScript exception is modelled by Except Unit; the payload
  of the exception is irrelevant to every claim.
- JSON.stringify may also return the JavaScript value undefined instead
  of a string (for an undefined input); hence its model returns
  Except Unit (Option String), with Except.ok none standing for that
  undefined result.
-/

set_option autoImplicit false

namespace StreamExport

/-- Model of a JavaScript value as it reaches the formatters:
null, undefined (an absent field), booleans, finite numbers, the
non-finite numbers NaN, Infinity and -Infinity, strings, Date objects
(represented by their toISOString rendering), arrays, plain objects,
and a marker for a circular object graph. -/
inductive JsValue where
  | null
  | undefined
  | bool (b : Bool)
  | num (n : Int)
  | nan
  | inf (neg : Bool)
  | str (s : String)
  | date (iso : String)
  | arr (elems : List JsValue)
  | obj (fields : List (String × JsValue))
  | circular
  deriving Repr

/-- One entry of the column projection: a source field name and a target
output name, as in the columns array passed to every formatter. -/
structure Column where
  source : String
  target : String
  deriving Repr, DecidableEq

/-- A row as delivered by the row source: an association list from
source field names to values (a JavaScript record object). -/
def Row : Type := List (String × JsValue)

/-- Property access chunk[key] on a row object: the first binding of the
key, or undefined when the key is absent. -/
def getField (row : Row) (key : String) : JsValue :=
  match row.find? (fun p => p.1 = key) with
  | some p => p.2
  | none => JsValue.undefined

/-- Array.prototype.join with a separator: empty list gives the empty
string, otherwise the pieces interleaved with the separator. -/
def joinSep (sep : String) : List String → String
  | [] => ""
  | [x] => x
  | x :: y :: xs => x ++ sep ++ joinSep sep (y :: xs)

/-- Concatenation of a list of strings (string building by repeated
appending, as the formatters do). -/
def concatStrs : List String → String
  | [] => ""
  | s :: ss => s ++ concatStrs ss

/-- Global single-character replacement on a list of characters: the
model of JavaScript str.replace with a one-character global regex. -/
def replaceCharL (c : Char) (r : List Char) : List Char → List Char
  | [] => []
  | a :: as => (if a = c then r else [a]) ++ replaceCharL c r as

/-- Global single-character replacement on strings. -/
def replaceChar (c : Char) (r : String) (s : String) : String :=
  String.mk (replaceCharL c r.data s.data)

/-- Character membership test on a string, the model of
str.includes with a one-character needle. -/
def hasChar (s : String) (c : Char) : Bool :=
  s.data.contains c

/-- Rendering of a natural number below 16 as a lowercase hex digit. -/
def hexDigit (n : Nat) : Char :=
  if n < 10 then Char.ofNat (48 + n) else Char.ofNat (87 + n)

/-- Four-digit lowercase hexadecimal rendering used by the
backslash-u escapes of JSON.stringify. -/
def hex4 (n : Nat) : String :=
  String.mk [hexDigit (n / 4096 % 16), hexDigit (n / 256 % 16),
             hexDigit (n / 16 % 16), hexDigit (n % 16)]

/-- Escape of one character inside a JSON string literal, following
JSON.stringify: quote and backslash get a backslash, the named control
escapes are used where they exist, remaining control characters get a
backslash-u escape, and every other character is kept as is. -/
def jsonEscapeChar (c : Char) : String :=
  if c = '"' then "\\\""
  else if c = '\\' then "\\\\"
  else if c = '\n' then "\\n"
  else if c = '\r' then "\\r"
  else if c = '\t' then "\\t"
  else if c.toNat = 8 then "\\b"
  else if c.toNat = 12 then "\\f"
  else if c.toNat < 32 then "\\u" ++ hex4 c.toNat
  else String.mk [c]

/-- JSON string literal for a string value, as produced by
JSON.stringify: surrounding quotes around the escaped characters. -/
def jsonQuote (s : String) : String :=
  "\"" ++ concatStrs (s.data.map jsonEscapeChar) ++ "\""

/-- Textual rendering of a finite number, String(n) and also its
JSON.stringify rendering (the embedding restricts numbers to
integers). -/
def numToString (n : Int) : String := toString n

mutual

/-- Model of JSON.stringify on a single value.  Except.error models a
thrown TypeError (circular structure); Except.ok none models the call
returning the JavaScript value undefined (input undefined); Except.ok
(some s) is the ordinary string result.  NaN and the infinities
serialize as the null token; a Date serializes via its toJSON method as
its ISO string; undefined elements of an array serialize as null;
object properties whose value is undefined are dropped. -/
def jsonStringifyVal : JsValue → Except Unit (Option String)
  | JsValue.null => Except.ok (some "null")
  | JsValue.undefined => Except.ok none
  | JsValue.bool b => Except.ok (some (if b then "true" else "false"))
  | JsValue.num n => Except.ok (some (numToString n))
  | JsValue.nan => Except.ok (some "null")
  | JsValue.inf _ => Except.ok (some "null")
  | JsValue.str s => Except.ok (some (jsonQuote s))
  | JsValue.date iso => Except.ok (some (jsonQuote iso))
  | JsValue.arr es =>
      match jsonStringifyArr es with
      | Except.error e => Except.error e
      | Except.ok xs => Except.ok (some ("[" ++ joinSep "," xs ++ "]"))
  | JsValue.obj fs =>
      match jsonStringifyFields fs with
      | Except.error e => Except.error e
      | Except.ok xs => Except.ok (some ("\x7b" ++ joinSep "," xs ++ "\x7d"))
  | JsValue.circular => Except.error ()

/-- Serialization of the elements of a JSON array; an element whose
serialization would be undefined appears as the null token. -/
def jsonStringifyArr : List JsValue → Except Unit (List String)
  | [] => Except.ok []
  | v :: vs =>
      match jsonStringifyVal v with
      | Except.error e => Except.error e
      | Except.ok s? =>
          match jsonStringifyArr vs with
          | Except.error e => Except.error e
          | Except.ok rest => Except.ok ((s?.getD "null") :: rest)

/-- Serialization of the properties of a JSON object; a property whose
value serializes to undefined is omitted from the output. -/
def jsonStringifyFields : List (String × JsValue) → Except Unit (List String)
  | [] => Except.ok []
  | (k, v) :: fs =>
      match jsonStringifyVal v with
      | Except.error e => Except.error e
      | Except.ok s? =>
          match jsonStringifyFields fs with
          | Except.error e => Except.error e
          | Except.ok rest =>
              match s? with
              | none => Except.ok rest
              | some s => Except.ok ((jsonQuote k ++ ":" ++ s) :: rest)

end

/-- Model of the helper prepareValue from the formatters module:
null and undefined give the empty string, a Date gives its ISO string,
any other object (array, plain object, circular graph) goes through
JSON.stringify, and every remaining scalar is rendered by String().
A thrown exception (JSON.stringify on a circular structure) is modelled
by Except.error. -/
def prepareValue : JsValue → Except Unit String
  | JsValue.null => Except.ok ""
  | JsValue.undefined => Except.ok ""
  | JsValue.date iso => Except.ok iso
  | JsValue.bool b => Except.ok (if b then "true" else "false")
  | JsValue.num n => Except.ok (numToString n)
  | JsValue.nan => Except.ok "NaN"
  | JsValue.inf neg => Except.ok (if neg then "-Infinity" else "Infinity")
  | JsValue.str s => Except.ok s
  | JsValue.arr es =>
      match jsonStringifyVal (JsValue.arr es) with
      | Except.error e => Except.error e
      | Except.ok s? => Except.ok (s?.getD "")
  | JsValue.obj fs =>
      match jsonStringifyVal (JsValue.obj fs) with
      | Except.error e => Except.error e
      | Except.ok s? => Except.ok (s?.getD "")
  | JsValue.circular =>
      match jsonStringifyVal JsValue.circular with
      | Except.error e => Except.error e
      | Except.ok s? => Except.ok (s?.getD "")

mutual

/-- Presence of the circular marker anywhere inside a value. -/
def containsCircular : JsValue → Bool
  | JsValue.arr es => containsCircularList es
  | JsValue.obj fs => containsCircularFields fs
  | JsValue.circular => true
  | _ => false

/-- Presence of the circular marker inside a list of values. -/
def containsCircularList : List JsValue → Bool
  | [] => false
  | v :: vs => containsCircular v || containsCircularList vs

/-- Presence of the circular marker inside the fields of an object. -/
def containsCircularFields : List (String × JsValue) → Bool
  | [] => false
  | (_, v) :: fs => containsCircular v || containsCircularFields fs

end

/-! Delimited-text (CSV) formatter. -/

/-- Quote-doubling step of the CSV formatter: the source first tests
val.includes and only then performs the global replacement of each
double quote by two double quotes. -/
def csvEscapeVal (val : String) : String :=
  if hasChar val '"' then replaceChar '"' "\"\"" val else val

/-- One CSV field: the normalized value, quote-doubled, wrapped in
double quotes. -/
def csvField (v : JsValue) : Except Unit String :=
  match prepareValue v with
  | Except.error e => Except.error e
  | Except.ok val => Except.ok ("\"" ++ csvEscapeVal val ++ "\"")

/-- The CSV header chunk pushed by the constructor: target names joined
by commas, newline-terminated. -/
def csvHeader (cols : List Column) : String :=
  joinSep "," (cols.map (fun c => c.target)) ++ "\n"

/-- One CSV data line: the projected fields joined by commas,
newline-terminated. -/
def csvRowLine (cols : List Column) (row : Row) : Except Unit String :=
  match cols.mapM (fun c => csvField (getField row c.source)) with
  | Except.error e => Except.error e
  | Except.ok fields => Except.ok (joinSep "," fields ++ "\n")

/-- Runner shared by the stateless formatters: push one chunk per row
until a row throws; the Bool records whether the run completed without
an error (end-of-input reached). -/
def runRows (step : Row → Except Unit String) : List Row → List String × Bool
  | [] => ([], true)
  | r :: rs =>
      match step r with
      | Except.error _ => ([], false)
      | Except.ok s =>
          let p := runRows step rs
          (s :: p.1, p.2)

/-- Chunk sequence of a CSV export: header from the constructor, one
line per row, and no flush hook, hence no footer even on success. -/
def csvRun (cols : List Column) (rows : List Row) : List String × Bool :=
  let p := runRows (csvRowLine cols) rows
  (csvHeader cols :: p.1, p.2)

/-! Markup (XML) formatter. -/

/-- Entity escaping of the XML formatter: the five global replacements
in source order, ampersand first, then angle brackets, then the two
quote characters. -/
def xmlEscape (s : String) : String :=
  replaceChar '\'' "&apos;"
    (replaceChar '"' "&quot;"
      (replaceChar '>' "&gt;"
        (replaceChar '<' "&lt;"
          (replaceChar '&' "&amp;" s))))

/-- Opening chunk pushed by the XML formatter's constructor:
declaration and root-open tag. -/
def xmlDecl : String := "<?xml version=\"1.0\" encoding=\"UTF-8\"?>\n<records>\n"

/-- One child element line of a record: the target name as tag around
the escaped normalized value. -/
def xmlElemLine (target : String) (v : JsValue) : Except Unit String :=
  match prepareValue v with
  | Except.error e => Except.error e
  | Except.ok val =>
      Except.ok ("    <" ++ target ++ ">" ++ xmlEscape val ++ "</" ++ target ++ ">\n")

/-- One XML record chunk: record-open line, one element line per
projected column, record-close line. -/
def xmlRowChunk (cols : List Column) (row : Row) : Except Unit String :=
  match cols.mapM (fun c => xmlElemLine c.target (getField row c.source)) with
  | Except.error e => Except.error e
  | Except.ok elems =>
      Except.ok ("  <record>\n" ++ concatStrs elems ++ "  </record>\n")

/-- Chunk sequence of an XML export: declaration chunk, one chunk per
row, and the root-close chunk pushed by the flush hook, which only runs
when no row threw. -/
def xmlRun (cols : List Column) (rows : List Row) : List String × Bool :=
  let p := runRows (xmlRowChunk cols) rows
  (xmlDecl :: (p.1 ++ (if p.2 then ["</records>"] else [])), p.2)

/-! Structured-document (JSON) formatter. -/

/-- The object built by the JSON formatter for one row: each target
name bound to the raw source value, native types kept. -/
def jsonProjObj (cols : List Column) (row : Row) : List (String × JsValue) :=
  cols.map (fun c => (c.target, getField row c.source))

/-- One JSON row chunk: a comma before every row except the first,
then the serialized row object. -/
def jsonRowChunk (cols : List Column) (first : Bool) (row : Row) : Except Unit String :=
  match jsonStringifyVal (JsValue.obj (jsonProjObj cols row)) with
  | Except.error e => Except.error e
  | Except.ok s? => Except.ok ((if first then "" else ",") ++ s?.getD "")

/-- Row chunks of the JSON formatter, threading the isFirst flag. -/
def jsonRowChunks (cols : List Column) : Bool → List Row → List String × Bool
  | _, [] => ([], true)
  | first, r :: rs =>
      match jsonRowChunk cols first r with
      | Except.error _ => ([], false)
      | Except.ok s =>
          let p := jsonRowChunks cols false rs
          (s :: p.1, p.2)

/-- Chunk sequence of a JSON export: the array-opening token from the
constructor, the row chunks, and the array-closing token pushed by the
flush hook, which only runs when no row threw. -/
def jsonRun (cols : List Column) (rows : List Row) : List String × Bool :=
  let p := jsonRowChunks cols true rows
  ("[" :: (p.1 ++ (if p.2 then ["]"] else [])), p.2)

/-! Columnar-binary (Parquet) formatter: schema derivation and the row
records handed to the parquet writer. -/

/-- Declared storage type of one parquet column. -/
structure ParquetFieldDef where
  type : String
  optional : Bool
  deriving Repr, DecidableEq

/-- Schema definitions built by the parquet formatter's constructor:
every target column declared as an optional UTF8 string field. -/
def parquetSchemaDefs (cols : List Column) : List (String × ParquetFieldDef) :=
  cols.map (fun c => (c.target, { type := "UTF8", optional := true }))

/-- The record handed to writer.appendRow for one row: every projected
value passed through prepareValue. -/
def parquetRowRecord (cols : List Column) (row : Row) :
    Except Unit (List (String × String)) :=
  cols.mapM (fun c =>
    match prepareValue (getField row c.source) with
    | Except.error e => Except.error e
    | Except.ok s => Except.ok (c.target, s))

/-! Pipeline model of measureExport: source to formatter to sink wired
by stream pipeline, with the client released in a finally block. -/

/-- One item produced by the row source: a row, or a fetch failure. -/
inductive SourceItem where
  | row (r : Row)
  | srcError

/-- Observable events of one export run: a chunk written to the sink,
an error aborting the pipeline, and the release of the database
client. -/
inductive Event where
  | sinkWrite (chunk : String)
  | errorRaised
  | release
  deriving Repr, DecidableEq

/-- Writing a list of chunks to the sink, which may reject a write by
index: the events produced, the next write index, and whether all
writes were accepted. -/
def sinkWrites (sinkOk : Nat → Bool) : Nat → List String → List Event × Nat × Bool
  | n, [] => ([], n, true)
  | n, c :: cs =>
      if sinkOk n then
        let p := sinkWrites sinkOk (n + 1) cs
        (Event.sinkWrite c :: p.1, p.2.1, p.2.2)
      else ([Event.errorRaised], n, false)

/-- The pipeline loop after construction: each source item is either a
row fed to the formatter step (whose chunks go to the sink) or a source
failure; any failure at any stage stops the run at once, and the
formatter's finish hook runs only on clean end-of-input. -/
def pipeRun {σ : Type} (step : σ → Row → Except Unit (σ × List String))
    (finish : σ → Except Unit (List String)) (sinkOk : Nat → Bool) :
    σ → Nat → List SourceItem → List Event
  | s, n, [] =>
      match finish s with
      | Except.error _ => [Event.errorRaised]
      | Except.ok cs => (sinkWrites sinkOk n cs).1
  | _, _, SourceItem.srcError :: _ => [Event.errorRaised]
  | s, n, SourceItem.row r :: items =>
      match step s r with
      | Except.error _ => [Event.errorRaised]
      | Except.ok (s', cs) =>
          let w := sinkWrites sinkOk n cs
          if w.2.2 then w.1 ++ pipeRun step finish sinkOk s' w.2.1 items else w.1

/-- Trace of one measureExport call: the constructor chunks go to the
sink, the pipeline runs, and the finally block releases the client on
every path, success or failure. -/
def measureExport {σ : Type} (start : List String)
    (step : σ → Row → Except Unit (σ × List String))
    (finish : σ → Except Unit (List String)) (sinkOk : Nat → Bool)
    (init : σ) (items : List SourceItem) : List Event :=
  (let w := sinkWrites sinkOk 0 start
   if w.2.2 then w.1 ++ pipeRun step finish sinkOk init w.2.1 items else w.1)
    ++ [Event.release]

/-- Discriminator for sink-write events. -/
def isWrite : Event → Bool
  | Event.sinkWrite _ => true
  | _ => false

/-- Absence of any sink write after an error event, anywhere in a
trace. -/
def noWriteAfterErr : List Event → Bool
  | [] => true
  | Event.errorRaised :: rest => rest.all (fun e => !(isWrite e)) && noWriteAfterErr rest
  | _ :: rest => noWriteAfterErr rest

/-! Basic lemmas about the string helpers. -/

theorem mk_data (s : String) : String.mk s.data = s := rfl

theorem data_append (a b : String) : (a ++ b).data = a.data ++ b.data := by
  cases a; cases b; rfl

theorem concatStrs_cons (s : String) (ss : List String) :
    concatStrs (s :: ss) = s ++ concatStrs ss := rfl

theorem replaceCharL_append (c : Char) (r : List Char) (xs ys : List Char) :
    replaceCharL c r (xs ++ ys) = replaceCharL c r xs ++ replaceCharL c r ys := by
  induction xs with
  | nil => rfl
  | cons a as ih => simp [replaceCharL, ih]

theorem replaceCharL_not_mem (c : Char) (r : List Char) (xs : List Char)
    (h : c ∉ xs) : replaceCharL c r xs = xs := by
  induction xs with
  | nil => rfl
  | cons a as ih =>
      simp only [List.mem_cons, not_or] at h
      have hac : a ≠ c := fun he => h.1 he.symm
      simp [replaceCharL, if_neg hac, ih h.2]

theorem replaceChar_data (c : Char) (r : String) (s : String) :
    (replaceChar c r s).data = replaceCharL c r.data s.data := rfl

/-! Claim C2: XML escaping is order-safe.  The source performs five
global replacements in sequence; the specification-side description is
a single pass replacing each character independently. -/

/-- Single-pass, per-character escape that the markup escaping is
claimed to be equivalent to: each character is replaced independently,
so no substitution can re-escape an entity introduced by another. -/
def xmlEscapeChar (c : Char) : String :=
  if c = '&' then "&amp;"
  else if c = '<' then "&lt;"
  else if c = '>' then "&gt;"
  else if c = '"' then "&quot;"
  else if c = '\'' then "&apos;"
  else String.mk [c]

/-- Specification-side single-pass escape over a whole string. -/
def xmlEscapeSpec (s : String) : String :=
  concatStrs (s.data.map xmlEscapeChar)

/-- List-level form of the source's five sequential replacements. -/
def xmlEscapeL (xs : List Char) : List Char :=
  replaceCharL '\'' "&apos;".data
    (replaceCharL '"' "&quot;".data
      (replaceCharL '>' "&gt;".data
        (replaceCharL '<' "&lt;".data
          (replaceCharL '&' "&amp;".data xs))))

theorem xmlEscape_data (s : String) : (xmlEscape s).data = xmlEscapeL s.data := rfl

theorem xmlEscapeL_append (xs ys : List Char) :
    xmlEscapeL (xs ++ ys) = xmlEscapeL xs ++ xmlEscapeL ys := by
  simp [xmlEscapeL, replaceCharL_append]

theorem xmlEscapeL_single (a : Char) : xmlEscapeL [a] = (xmlEscapeChar a).data := by
  by_cases h1 : a = '&'
  · subst h1; decide
  by_cases h2 : a = '<'
  · subst h2; decide
  by_cases h3 : a = '>'
  · subst h3; decide
  by_cases h4 : a = '"'
  · subst h4; decide
  by_cases h5 : a = '\''
  · subst h5; decide
  have e1 : replaceCharL '&' "&amp;".data [a] = [a] := by
    apply replaceCharL_not_mem; simp [h1, eq_comm]
  have e2 : replaceCharL '<' "&lt;".data [a] = [a] := by
    apply replaceCharL_not_mem; simp [h2, eq_comm]
  have e3 : replaceCharL '>' "&gt;".data [a] = [a] := by
    apply replaceCharL_not_mem; simp [h3, eq_comm]
  have e4 : replaceCharL '"' "&quot;".data [a] = [a] := by
    apply replaceCharL_not_mem; simp [h4, eq_comm]
  have e5 : replaceCharL '\'' "&apos;".data [a] = [a] := by
    apply replaceCharL_not_mem; simp [h5, eq_comm]
  simp [xmlEscapeL, e1, e2, e3, e4, e5, xmlEscapeChar, h1, h2, h3, h4, h5]

theorem xmlEscapeL_eq_spec (xs : List Char) :
    xmlEscapeL xs = (concatStrs (xs.map xmlEscapeChar)).data := by
  induction xs with
  | nil => rfl
  | cons a as ih =>
      have h2 : xmlEscapeL (a :: as) = xmlEscapeL [a] ++ xmlEscapeL as := by
        have he : a :: as = [a] ++ as := rfl
        rw [he, xmlEscapeL_append]
      rw [h2, xmlEscapeL_single, List.map_cons, concatStrs_cons, data_append, ih]

/-- Claim C2: the markup encoder's five sequential substitutions,
ampersand first, are equivalent to a single independent per-character
escape (so no substitution re-escapes an entity introduced by an
earlier one), and the input AT&T "ok" encodes to
AT&amp;T &quot;ok&quot;. -/
theorem claim_C2 :
    (∀ s : String, xmlEscape s = xmlEscapeSpec s)
    ∧ xmlEscape "AT&T \"ok\"" = "AT&amp;T &quot;ok&quot;" := by
  constructor
  · intro s
    have h : (xmlEscape s).data = (xmlEscapeSpec s).data := by
      rw [xmlEscape_data, xmlEscapeL_eq_spec]; rfl
    calc xmlEscape s = String.mk (xmlEscape s).data := rfl
      _ = String.mk (xmlEscapeSpec s).data := by rw [h]
      _ = xmlEscapeSpec s := rfl
  · decide

/-! Success predicate and defaulted result of the normalizer, used to
phrase theorems about runs in which no value threw. -/

/-- Success discriminator for the exception monad of the embedding. -/
def okE {α : Type} : Except Unit α → Bool
  | Except.ok _ => true
  | Except.error _ => false

/-- Result of prepareValue when it succeeds (and the empty string on
the unreachable failure branch, used only to phrase equalities). -/
def normed (v : JsValue) : String :=
  match prepareValue v with
  | Except.ok s => s
  | Except.error _ => ""

theorem prepareValue_eq_normed (v : JsValue) (h : okE (prepareValue v) = true) :
    prepareValue v = Except.ok (normed v) := by
  cases hv : prepareValue v with
  | ok s => simp [normed, hv]
  | error e => rw [hv] at h; simp [okE] at h

theorem mapM_ok {α β : Type} (f : α → Except Unit β) (g : α → β)
    (l : List α) (h : ∀ a ∈ l, f a = Except.ok (g a)) :
    l.mapM f = Except.ok (l.map g) := by
  induction l with
  | nil => rfl
  | cons a as ih =>
      have ha := h a (List.mem_cons_self a as)
      have hrest : ∀ x ∈ as, f x = Except.ok (g x) :=
        fun x hx => h x (List.mem_cons_of_mem a hx)
      rw [List.mapM_cons, ha, ih hrest]; rfl

/-- The data line the CSV formatter produces for one row when no value
throws. -/
def csvLineOf (cols : List Column) (row : Row) : String :=
  joinSep "," (cols.map (fun c =>
    "\"" ++ csvEscapeVal (normed (getField row c.source)) ++ "\"")) ++ "\n"

theorem csvField_ok (v : JsValue) (h : okE (prepareValue v) = true) :
    csvField v = Except.ok ("\"" ++ csvEscapeVal (normed v) ++ "\"") := by
  simp [csvField, prepareValue_eq_normed v h]

theorem csvRowLine_ok (cols : List Column) (row : Row)
    (h : ∀ c ∈ cols, okE (prepareValue (getField row c.source)) = true) :
    csvRowLine cols row = Except.ok (csvLineOf cols row) := by
  have hm := mapM_ok (fun c => csvField (getField row c.source))
    (fun c => "\"" ++ csvEscapeVal (normed (getField row c.source)) ++ "\"") cols
    (fun c hc => csvField_ok (getField row c.source) (h c hc))
  unfold csvRowLine
  rw [hm]
  rfl

theorem runRows_ok (step : Row → Except Unit String) (lineOf : Row → String)
    (rows : List Row) (h : ∀ r ∈ rows, step r = Except.ok (lineOf r)) :
    runRows step rows = (rows.map lineOf, true) := by
  induction rows with
  | nil => rfl
  | cons r rs ih =>
      have hr := h r (List.mem_cons_self r rs)
      have hrest : ∀ x ∈ rs, step x = Except.ok (lineOf x) :=
        fun x hx => h x (List.mem_cons_of_mem r hx)
      simp [runRows, hr, ih hrest]

theorem csvRun_ok (cols : List Column) (rows : List Row)
    (h : ∀ row ∈ rows, ∀ c ∈ cols, okE (prepareValue (getField row c.source)) = true) :
    csvRun cols rows = (csvHeader cols :: rows.map (csvLineOf cols), true) := by
  have hr := runRows_ok (csvRowLine cols) (csvLineOf cols) rows
    (fun r hrr => csvRowLine_ok cols r (h r hrr))
  simp [csvRun, hr]

theorem csvEscapeVal_eq (s : String) : csvEscapeVal s = replaceChar '"' "\"\"" s := by
  unfold csvEscapeVal
  by_cases h : hasChar s '"' = true
  · rw [if_pos h]
  · rw [if_neg h]
    have hnm : '"' ∉ s.data := by simpa [hasChar] using h
    calc s = String.mk s.data := rfl
      _ = String.mk (replaceCharL '"' "\"\"".data s.data) := by
            rw [replaceCharL_not_mem _ _ _ hnm]
      _ = replaceChar '"' "\"\"" s := rfl

/-- Claim C1: on a run where no projected value throws, the CSV
formatter emits at construction the header (target names joined by
commas, newline-terminated) and then exactly one line per row, each
projected field normalized, its embedded double quotes doubled
(unconditionally), wrapped in double quotes unconditionally, fields
joined by commas, the line newline-terminated; the chunk list contains
nothing else, so no footer is ever emitted. -/
theorem claim_C1 (cols : List Column) (rows : List Row)
    (h : ∀ row ∈ rows, ∀ c ∈ cols, okE (prepareValue (getField row c.source)) = true) :
    csvRun cols rows =
      (csvHeader cols ::
        rows.map (fun row =>
          joinSep "," (cols.map (fun c =>
            "\"" ++ replaceChar '"' "\"\"" (normed (getField row c.source)) ++ "\"")) ++ "\n"),
        true)
    ∧ csvHeader cols = joinSep "," (cols.map (fun c => c.target)) ++ "\n" := by
  refine ⟨?_, rfl⟩
  rw [csvRun_ok cols rows h]
  simp [csvLineOf, csvEscapeVal_eq]

set_option maxHeartbeats 1000000 in
/-- Witness for claim C1 at a concrete projection and row whose value
contains an embedded double quote. -/
theorem claim_C1_witness :
    csvRun [⟨"a", "a"⟩] ([[("a", JsValue.str "x\"y")]] : List Row) =
      (["a\n", "\"x\"\"y\"\n"], true) := by
  have h := (claim_C1 [⟨"a", "a"⟩] ([[("a", JsValue.str "x\"y")]] : List Row) (by decide)).1
  exact h.trans (by decide)

/-! Claim C5: line counting of delimited-text output. -/

/-- Number of occurrences of a character in a string. -/
def countChar (c : Char) (s : String) : Nat := s.data.count c

/-- Number of lines of a newline-terminated text, as the number of
newline characters it contains. -/
def lineCount (s : String) : Nat := countChar '\n' s

theorem countChar_append (c : Char) (a b : String) :
    countChar c (a ++ b) = countChar c a + countChar c b := by
  simp [countChar, data_append]

theorem countChar_joinSep_zero (c : Char) (sep : String) (l : List String)
    (hsep : countChar c sep = 0) (h : ∀ s ∈ l, countChar c s = 0) :
    countChar c (joinSep sep l) = 0 := by
  induction l with
  | nil => simp [joinSep, countChar]
  | cons x xs ih =>
      cases xs with
      | nil => exact h x (List.mem_cons_self x [])
      | cons y ys =>
          have hx := h x (List.mem_cons_self x (y :: ys))
          have hrest : ∀ s ∈ y :: ys, countChar c s = 0 :=
            fun s hs => h s (List.mem_cons_of_mem x hs)
          have : joinSep sep (x :: y :: ys) = x ++ sep ++ joinSep sep (y :: ys) := rfl
          rw [this, countChar_append, countChar_append, hx, hsep, ih hrest]

theorem countChar_concatStrs (c : Char) (l : List String) :
    countChar c (concatStrs l) = (l.map (countChar c)).sum := by
  induction l with
  | nil => simp [concatStrs, countChar]
  | cons s ss ih => simp [concatStrs_cons, countChar_append, ih]

theorem not_mem_replaceCharL (a c : Char) (r xs : List Char)
    (hr : a ∉ r) (hx : a ∉ xs) : a ∉ replaceCharL c r xs := by
  induction xs with
  | nil => simp [replaceCharL]
  | cons b bs ih =>
      simp only [List.mem_cons, not_or] at hx
      intro hmem
      rcases List.mem_append.mp hmem with h1 | h2
      · by_cases hb : b = c
        · rw [if_pos hb] at h1; exact hr h1
        · rw [if_neg hb] at h1
          simp only [List.mem_singleton] at h1
          exact hx.1 h1
      · exact ih hx.2 h2

theorem countChar_csvEscapeVal_zero (s : String) (h : countChar '\n' s = 0) :
    countChar '\n' (csvEscapeVal s) = 0 := by
  rw [csvEscapeVal_eq]
  have hs : '\n' ∉ s.data := List.count_eq_zero.mp h
  exact List.count_eq_zero.mpr
    (not_mem_replaceCharL '\n' '"' "\"\"".data s.data (by decide) hs)

theorem sum_map_one {α : Type} (l : List α) :
    (l.map (fun _ => (1 : Nat))).sum = l.length := by
  induction l with
  | nil => rfl
  | cons a as ih => simp only [List.map_cons, List.sum_cons, ih, List.length_cons]; omega

theorem lineCount_csvLine (cols : List Column) (row : Row)
    (hnl : ∀ c ∈ cols, countChar '\n' (normed (getField row c.source)) = 0) :
    countChar '\n' (csvLineOf cols row) = 1 := by
  rw [csvLineOf, countChar_append]
  have hz : countChar '\n' (joinSep "," (cols.map (fun c =>
      "\"" ++ csvEscapeVal (normed (getField row c.source)) ++ "\""))) = 0 := by
    apply countChar_joinSep_zero _ _ _ (by decide)
    intro s hs
    rcases List.mem_map.mp hs with ⟨c, hc, rfl⟩
    rw [countChar_append, countChar_append]
    rw [countChar_csvEscapeVal_zero _ (hnl c hc)]
    decide
  rw [hz]; decide

/-- Counterexample to claim C5 as stated: a field value containing an
embedded newline makes the delimited-text output contain three newline
characters for a single row, so the line count is rowCount + 2, not
rowCount + 1. -/
theorem claim_C5_counterexample :
    ¬ lineCount (concatStrs (csvRun [⟨"a", "a"⟩]
        ([[("a", JsValue.str "x\ny")]] : List Row)).1) =
      ([[("a", JsValue.str "x\ny")]] : List Row).length + 1 := by decide

/-- Claim C5 amended: for every non-empty row sequence in which no
target name and no normalized projected field value contains a newline
character (and no value throws), the delimited-text output contains
exactly rowCount + 1 newline-terminated lines. -/
theorem claim_C5_amended (cols : List Column) (rows : List Row)
    (hne : rows ≠ [])
    (hcols : ∀ c ∈ cols, countChar '\n' c.target = 0)
    (hok : ∀ row ∈ rows, ∀ c ∈ cols, okE (prepareValue (getField row c.source)) = true)
    (hnl : ∀ row ∈ rows, ∀ c ∈ cols, countChar '\n' (normed (getField row c.source)) = 0) :
    lineCount (concatStrs (csvRun cols rows).1) = rows.length + 1 := by
  rw [csvRun_ok cols rows hok]
  show countChar '\n' (concatStrs (csvHeader cols :: rows.map (csvLineOf cols))) = _
  rw [countChar_concatStrs]
  have hhead : countChar '\n' (csvHeader cols) = 1 := by
    rw [csvHeader, countChar_append]
    have hz : countChar '\n' (joinSep "," (cols.map (fun c => c.target))) = 0 := by
      apply countChar_joinSep_zero _ _ _ (by decide)
      intro s hs
      rcases List.mem_map.mp hs with ⟨c, hc, rfl⟩
      exact hcols c hc
    rw [hz]; decide
  have hlines : (rows.map (csvLineOf cols)).map (countChar '\n') =
      rows.map (fun _ => (1 : Nat)) := by
    rw [List.map_map]
    exact List.map_congr_left (fun r hr =>
      lineCount_csvLine cols r (fun c hc => hnl r hr c hc))
  rw [List.map_cons, hhead, hlines, List.sum_cons, sum_map_one]
  omega

/-- Witness for the amended claim C5 at a concrete one-row export with
no embedded newline. -/
theorem claim_C5_witness :
    lineCount (concatStrs (csvRun [⟨"a", "a"⟩]
        ([[("a", JsValue.str "xy")]] : List Row)).1) =
      ([[("a", JsValue.str "xy")]] : List Row).length + 1 :=
  claim_C5_amended [⟨"a", "a"⟩] ([[("a", JsValue.str "xy")]] : List Row)
    (List.cons_ne_nil _ _) (by decide) (by decide) (by decide)

/-! String algebra helpers used by the JSON development. -/

theorem append_empty_str (s : String) : s ++ "" = s := by
  have h : (s ++ "").data = s.data := by
    rw [data_append]; simp
  calc s ++ "" = String.mk ((s ++ "").data) := rfl
    _ = String.mk s.data := by rw [h]
    _ = s := rfl

theorem append_assoc_str (a b c : String) : a ++ b ++ c = a ++ (b ++ c) := by
  have h : (a ++ b ++ c).data = (a ++ (b ++ c)).data := by
    simp [data_append]
  calc a ++ b ++ c = String.mk ((a ++ b ++ c).data) := rfl
    _ = String.mk ((a ++ (b ++ c)).data) := by rw [h]
    _ = a ++ (b ++ c) := rfl

theorem concatStrs_append (l1 l2 : List String) :
    concatStrs (l1 ++ l2) = concatStrs l1 ++ concatStrs l2 := by
  induction l1 with
  | nil =>
      simp only [List.nil_append, concatStrs]
      have : ∀ t : String, "" ++ t = t := fun t => by
        calc "" ++ t = String.mk (("" ++ t).data) := rfl
          _ = String.mk t.data := by rw [data_append]; rfl
          _ = t := rfl
      rw [this]
  | cons s ss ih =>
      simp only [List.cons_append, concatStrs_cons, ih, append_assoc_str]

/-! Circular structures are exactly the values on which the JSON
serializer throws. -/

mutual

theorem stringify_ok_of_not_circular (v : JsValue) (h : containsCircular v = false) :
    okE (jsonStringifyVal v) = true := by
  cases v with
  | arr es =>
      have h2 := stringifyArr_ok_of_not_circular es (by simpa [containsCircular] using h)
      cases he : jsonStringifyArr es with
      | error e => rw [he] at h2; simp [okE] at h2
      | ok xs => simp [jsonStringifyVal, he, okE]
  | obj fs =>
      have h2 := stringifyFields_ok_of_not_circular fs (by simpa [containsCircular] using h)
      cases he : jsonStringifyFields fs with
      | error e => rw [he] at h2; simp [okE] at h2
      | ok xs => simp [jsonStringifyVal, he, okE]
  | circular => simp [containsCircular] at h
  | null => rfl
  | undefined => rfl
  | bool b => rfl
  | num n => rfl
  | nan => rfl
  | inf neg => rfl
  | str s => rfl
  | date iso => rfl

theorem stringifyArr_ok_of_not_circular (vs : List JsValue)
    (h : containsCircularList vs = false) : okE (jsonStringifyArr vs) = true := by
  cases vs with
  | nil => rfl
  | cons v rest =>
      have hp : containsCircular v = false ∧ containsCircularList rest = false := by
        simpa [containsCircularList, Bool.or_eq_false_iff] using h
      have h1 := stringify_ok_of_not_circular v hp.1
      have h2 := stringifyArr_ok_of_not_circular rest hp.2
      cases he1 : jsonStringifyVal v with
      | error e => rw [he1] at h1; simp [okE] at h1
      | ok s? =>
          cases he2 : jsonStringifyArr rest with
          | error e => rw [he2] at h2; simp [okE] at h2
          | ok xs => simp [jsonStringifyArr, he1, he2, okE]

theorem stringifyFields_ok_of_not_circular (fs : List (String × JsValue))
    (h : containsCircularFields fs = false) : okE (jsonStringifyFields fs) = true := by
  cases fs with
  | nil => rfl
  | cons p rest =>
      cases p with
      | mk k v =>
          have hp : containsCircular v = false ∧ containsCircularFields rest = false := by
            simpa [containsCircularFields, Bool.or_eq_false_iff] using h
          have h1 := stringify_ok_of_not_circular v hp.1
          have h2 := stringifyFields_ok_of_not_circular rest hp.2
          cases he1 : jsonStringifyVal v with
          | error e => rw [he1] at h1; simp [okE] at h1
          | ok s? =>
              cases he2 : jsonStringifyFields rest with
              | error e => rw [he2] at h2; simp [okE] at h2
              | ok xs =>
                  cases s? with
                  | none => simp [jsonStringifyFields, he1, he2, okE]
                  | some s => simp [jsonStringifyFields, he1, he2, okE]

end

mutual

theorem stringify_err_of_circular (v : JsValue) (h : containsCircular v = true) :
    jsonStringifyVal v = Except.error () := by
  cases v with
  | arr es =>
      have h2 := stringifyArr_err_of_circular es (by simpa [containsCircular] using h)
      simp [jsonStringifyVal, h2]
  | obj fs =>
      have h2 := stringifyFields_err_of_circular fs (by simpa [containsCircular] using h)
      simp [jsonStringifyVal, h2]
  | circular => rfl
  | null => simp [containsCircular] at h
  | undefined => simp [containsCircular] at h
  | bool b => simp [containsCircular] at h
  | num n => simp [containsCircular] at h
  | nan => simp [containsCircular] at h
  | inf neg => simp [containsCircular] at h
  | str s => simp [containsCircular] at h
  | date iso => simp [containsCircular] at h

theorem stringifyArr_err_of_circular (vs : List JsValue)
    (h : containsCircularList vs = true) : jsonStringifyArr vs = Except.error () := by
  cases vs with
  | nil => simp [containsCircularList] at h
  | cons v rest =>
      cases hv : containsCircular v with
      | true =>
          have h1 := stringify_err_of_circular v hv
          simp [jsonStringifyArr, h1]
      | false =>
          have hrest : containsCircularList rest = true := by
            have := h
            simp only [containsCircularList, hv, Bool.false_or] at this
            exact this
          have hok := stringify_ok_of_not_circular v hv
          cases he1 : jsonStringifyVal v with
          | error e => rw [he1] at hok; simp [okE] at hok
          | ok s? =>
              have h2 := stringifyArr_err_of_circular rest hrest
              simp [jsonStringifyArr, he1, h2]

theorem stringifyFields_err_of_circular (fs : List (String × JsValue))
    (h : containsCircularFields fs = true) : jsonStringifyFields fs = Except.error () := by
  cases fs with
  | nil => simp [containsCircularFields] at h
  | cons p rest =>
      cases p with
      | mk k v =>
          cases hv : containsCircular v with
          | true =>
              have h1 := stringify_err_of_circular v hv
              simp [jsonStringifyFields, h1]
          | false =>
              have hrest : containsCircularFields rest = true := by
                have := h
                simp only [containsCircularFields, hv, Bool.false_or] at this
                exact this
              have hok := stringify_ok_of_not_circular v hv
              cases he1 : jsonStringifyVal v with
              | error e => rw [he1] at hok; simp [okE] at hok
              | ok s? =>
                  have h2 := stringifyFields_err_of_circular rest hrest
                  cases s? with
                  | none => simp [jsonStringifyFields, he1, h2]
                  | some s => simp [jsonStringifyFields, he1, h2]

end

/-! Claim C6: totality of the normalizer. -/

/-- Counterexample to claim C6 as stated: on a circular structure the
normalizer calls JSON.stringify, which throws, so normalization is not
total.  Except.error models the thrown TypeError. -/
theorem claim_C6_counterexample : prepareValue JsValue.circular = Except.error () := rfl

/-- Claim C6 amended: for every input value that does not contain a
circular structure the normalizer succeeds, and it returns the empty
string for null or absent values (so a projection naming a missing
source field yields empty-string output, not an error), the ISO-8601
string for timestamps, the JSON-serialized form for nested structures,
and the textual representation for all other scalars. -/
theorem claim_C6_amended :
    (∀ v : JsValue, containsCircular v = false → okE (prepareValue v) = true)
    ∧ prepareValue JsValue.null = Except.ok ""
    ∧ prepareValue JsValue.undefined = Except.ok ""
    ∧ (∀ (row : Row) (k : String), row.find? (fun p => p.1 = k) = none →
        prepareValue (getField row k) = Except.ok "")
    ∧ (∀ iso : String, prepareValue (JsValue.date iso) = Except.ok iso)
    ∧ (∀ n : Int, prepareValue (JsValue.num n) = Except.ok (numToString n))
    ∧ (∀ b : Bool, prepareValue (JsValue.bool b) = Except.ok (if b then "true" else "false"))
    ∧ (∀ s : String, prepareValue (JsValue.str s) = Except.ok s)
    ∧ (∀ (fs : List (String × JsValue)) (s : String),
        jsonStringifyVal (JsValue.obj fs) = Except.ok (some s) →
        prepareValue (JsValue.obj fs) = Except.ok s)
    ∧ (∀ (es : List JsValue) (s : String),
        jsonStringifyVal (JsValue.arr es) = Except.ok (some s) →
        prepareValue (JsValue.arr es) = Except.ok s) := by
  refine ⟨?_, rfl, rfl, ?_, fun _ => rfl, fun _ => rfl, fun _ => rfl, fun _ => rfl, ?_, ?_⟩
  · intro v h
    cases v with
    | arr es =>
        have h2 := stringify_ok_of_not_circular (JsValue.arr es) h
        cases he : jsonStringifyVal (JsValue.arr es) with
        | error e => rw [he] at h2; simp [okE] at h2
        | ok s? => simp [prepareValue, he, okE]
    | obj fs =>
        have h2 := stringify_ok_of_not_circular (JsValue.obj fs) h
        cases he : jsonStringifyVal (JsValue.obj fs) with
        | error e => rw [he] at h2; simp [okE] at h2
        | ok s? => simp [prepareValue, he, okE]
    | circular => simp [containsCircular] at h
    | null => rfl
    | undefined => rfl
    | bool b => rfl
    | num n => rfl
    | nan => rfl
    | inf neg => rfl
    | str s => rfl
    | date iso => rfl
  · intro row k h
    rw [getField, h]
    rfl
  · intro fs s h
    simp [prepareValue, h]
  · intro es s h
    simp [prepareValue, h]

/-- Witness for the amended claim C6 on a non-circular nested
structure, an absent field and a timestamp. -/
theorem claim_C6_witness :
    okE (prepareValue (JsValue.obj [("tag", JsValue.str "test")])) = true
    ∧ prepareValue (getField ([("b", JsValue.num 1)] : Row) "a") = Except.ok "" :=
  ⟨claim_C6_amended.1 (JsValue.obj [("tag", JsValue.str "test")]) (by decide),
   claim_C6_amended.2.2.2.1 ([("b", JsValue.num 1)] : Row) "a" rfl⟩

/-! Claim C3: representability failures in the JSON formatter. -/

/-- Counterexample to claim C3 as stated: a row holding the non-finite
number NaN does not fail the export; the JSON formatter silently
serializes it as the null token and the run completes (flag true) with
the closing bracket emitted. -/
theorem claim_C3_counterexample :
    jsonRun [⟨"a", "a"⟩] ([[("a", JsValue.nan)]] : List Row) =
      (["[", "\x7b\"a\":null\x7d", "]"], true) := by decide

theorem jsonObjStr_shape (fs : List (String × JsValue)) (s? : Option String)
    (h : jsonStringifyVal (JsValue.obj fs) = Except.ok s?) :
    ∃ t, s? = some ("\x7b" ++ t) := by
  cases he : jsonStringifyFields fs with
  | error e => simp [jsonStringifyVal, he] at h
  | ok xs =>
      simp only [jsonStringifyVal, he, Except.ok.injEq] at h
      exact ⟨joinSep "," xs ++ "\x7d", by rw [← h, append_assoc_str]⟩

theorem jsonRowChunks_head (cols : List Column) (first : Bool) (rows : List Row) :
    ∀ s ∈ (jsonRowChunks cols first rows).1,
      s.data.head? = some '\x7b' ∨ s.data.head? = some ',' := by
  induction rows generalizing first with
  | nil => intro s hs; simp [jsonRowChunks] at hs
  | cons r rs ih =>
      intro s hs
      cases hc : jsonRowChunk cols first r with
      | error e => rw [jsonRowChunks, hc] at hs; simp at hs
      | ok c =>
          rw [jsonRowChunks, hc] at hs
          simp only [List.mem_cons] at hs
          rcases hs with rfl | hs
          · rw [jsonRowChunk] at hc
            cases he : jsonStringifyVal (JsValue.obj (jsonProjObj cols r)) with
            | error e => rw [he] at hc; simp at hc
            | ok t? =>
                rw [he] at hc
                simp only [Except.ok.injEq] at hc
                rcases jsonObjStr_shape _ _ he with ⟨t, rfl⟩
                cases first with
                | true =>
                    left
                    rw [← hc]
                    simp [data_append]
                | false =>
                    right
                    rw [← hc]
                    rfl
          · exact ih false s hs


theorem jsonRowChunks_circular (cols : List Column) (first : Bool) (rows : List Row)
    (h : ∃ row ∈ rows, containsCircularFields (jsonProjObj cols row) = true) :
    (jsonRowChunks cols first rows).2 = false := by
  induction rows generalizing first with
  | nil => rcases h with ⟨r, hr, _⟩; simp at hr
  | cons r rs ih =>
      cases hv : containsCircularFields (jsonProjObj cols r) with
      | true =>
          have herr : jsonStringifyVal (JsValue.obj (jsonProjObj cols r)) = Except.error () :=
            stringify_err_of_circular _ (by simpa [containsCircular] using hv)
          have hc : jsonRowChunk cols first r = Except.error () := by
            rw [jsonRowChunk, herr]
          simp [jsonRowChunks, hc]
      | false =>
          rcases h with ⟨r0, hr0, hcirc⟩
          rcases List.mem_cons.mp hr0 with rfl | hmem
          · rw [hv] at hcirc; simp at hcirc
          · have htail := ih false ⟨r0, hmem, hcirc⟩
            cases hc : jsonRowChunk cols first r with
            | error e => simp [jsonRowChunks, hc]
            | ok s => simp [jsonRowChunks, hc, htail]

/-- Claim C3 amended: a row whose projected values contain a circular
structure fails the whole export with an error — the run aborts and the
array-closing token is never emitted — whereas a non-finite number does
not fail the export: JSON.stringify silently serializes it as the null
token. -/
theorem claim_C3_amended :
    (∀ (cols : List Column) (rows : List Row),
        (∃ row ∈ rows, containsCircularFields (jsonProjObj cols row) = true) →
        (jsonRun cols rows).2 = false ∧ "]" ∉ (jsonRun cols rows).1)
    ∧ (∀ k : String,
        jsonStringifyFields [(k, JsValue.nan)] =
          Except.ok [jsonQuote k ++ ":" ++ "null"]) := by
  constructor
  · intro cols rows h
    have h2 := jsonRowChunks_circular cols true rows h
    refine ⟨by simp [jsonRun, h2], ?_⟩
    simp only [jsonRun, h2, if_false, Bool.false_eq_true, List.append_nil]
    intro hm
    rcases List.mem_cons.mp hm with he | hm2
    · exact absurd he (by decide)
    · rcases jsonRowChunks_head cols true rows "]" hm2 with hh | hh
      · exact absurd hh (by decide)
      · exact absurd hh (by decide)
  · intro k; rfl

/-- Witness for the amended claim C3: a single-row export whose value
is a circular structure aborts with no closing token. -/
theorem claim_C3_witness :
    (jsonRun [⟨"a", "a"⟩] ([[("a", JsValue.circular)]] : List Row)).2 = false
    ∧ "]" ∉ (jsonRun [⟨"a", "a"⟩] ([[("a", JsValue.circular)]] : List Row)).1 :=
  claim_C3_amended.1 [⟨"a", "a"⟩] ([[("a", JsValue.circular)]] : List Row)
    ⟨([("a", JsValue.circular)] : Row), List.mem_cons_self _ _, by decide⟩

/-! Structure of a successful JSON run. -/

theorem empty_append_str (s : String) : "" ++ s = s := by
  calc "" ++ s = String.mk (("" ++ s).data) := rfl
    _ = String.mk s.data := by rw [data_append]; rfl
    _ = s := rfl

/-- Entries of the serialized row object, on the success branch. -/
def jsonObjBody (fs : List (String × JsValue)) : List String :=
  match jsonStringifyFields fs with
  | Except.ok xs => xs
  | Except.error _ => []

/-- Serialized form of an object, on the success branch. -/
def jsonObjStr (fs : List (String × JsValue)) : String :=
  "\x7b" ++ joinSep "," (jsonObjBody fs) ++ "\x7d"

theorem stringifyObj_eq (fs : List (String × JsValue))
    (h : okE (jsonStringifyFields fs) = true) :
    jsonStringifyVal (JsValue.obj fs) = Except.ok (some (jsonObjStr fs)) := by
  cases he : jsonStringifyFields fs with
  | error e => rw [he] at h; simp [okE] at h
  | ok xs => simp [jsonStringifyVal, he, jsonObjStr, jsonObjBody]

/-- The row chunks a successful JSON run produces: every row chunk is
the serialized row object, preceded by a comma for every row but the
first. -/
def jsonChunksOf (cols : List Column) : Bool → List Row → List String
  | _, [] => []
  | first, r :: rs =>
      ((if first then "" else ",") ++ jsonObjStr (jsonProjObj cols r)) ::
        jsonChunksOf cols false rs

theorem jsonRowChunks_ok (cols : List Column) (rows : List Row) :
    ∀ first : Bool,
      (∀ row ∈ rows, okE (jsonStringifyFields (jsonProjObj cols row)) = true) →
      jsonRowChunks cols first rows = (jsonChunksOf cols first rows, true) := by
  induction rows with
  | nil => intro first _; rfl
  | cons r rs ih =>
      intro first h
      have hr := h r (List.mem_cons_self r rs)
      have hc : jsonRowChunk cols first r =
          Except.ok ((if first then "" else ",") ++ jsonObjStr (jsonProjObj cols r)) := by
        rw [jsonRowChunk, stringifyObj_eq _ hr]
        rfl
      have ht := ih false (fun x hx => h x (List.mem_cons_of_mem r hx))
      simp [jsonRowChunks, hc, ht, jsonChunksOf]

theorem jsonRun_ok (cols : List Column) (rows : List Row)
    (h : ∀ row ∈ rows, okE (jsonStringifyFields (jsonProjObj cols row)) = true) :
    jsonRun cols rows = ("[" :: (jsonChunksOf cols true rows ++ ["]"]), true) := by
  simp [jsonRun, jsonRowChunks_ok cols rows true h]

theorem jsonChunksOf_length (cols : List Column) (first : Bool) (rows : List Row) :
    (jsonChunksOf cols first rows).length = rows.length := by
  induction rows generalizing first with
  | nil => rfl
  | cons r rs ih => simp [jsonChunksOf, ih]

theorem joinSep_cons_concat (x : String) (xs : List String) :
    joinSep "," (x :: xs) = x ++ concatStrs (xs.map (fun s => "," ++ s)) := by
  induction xs generalizing x with
  | nil => simp [joinSep, concatStrs, append_empty_str]
  | cons y ys ih =>
      rw [show joinSep "," (x :: y :: ys) = x ++ "," ++ joinSep "," (y :: ys) from rfl, ih y]
      simp [List.map_cons, concatStrs_cons, append_assoc_str]

theorem concatStrs_jsonChunksOf_false (cols : List Column) (rows : List Row) :
    concatStrs (jsonChunksOf cols false rows) =
      concatStrs ((rows.map (fun r => jsonObjStr (jsonProjObj cols r))).map
        (fun s => "," ++ s)) := by
  induction rows with
  | nil => rfl
  | cons r rs ih => simp [jsonChunksOf, concatStrs_cons, ih]

theorem concatStrs_jsonChunksOf_true (cols : List Column) (rows : List Row) :
    concatStrs (jsonChunksOf cols true rows) =
      joinSep "," (rows.map (fun r => jsonObjStr (jsonProjObj cols r))) := by
  cases rows with
  | nil => rfl
  | cons r rs =>
      rw [List.map_cons, joinSep_cons_concat]
      simp [jsonChunksOf, concatStrs_cons, concatStrs_jsonChunksOf_false,
        empty_append_str]

theorem stringifyArr_map_obj (cols : List Column) (rows : List Row)
    (h : ∀ row ∈ rows, okE (jsonStringifyFields (jsonProjObj cols row)) = true) :
    jsonStringifyArr (rows.map (fun r => JsValue.obj (jsonProjObj cols r))) =
      Except.ok (rows.map (fun r => jsonObjStr (jsonProjObj cols r))) := by
  induction rows with
  | nil => rfl
  | cons r rs ih =>
      have hr := stringifyObj_eq _ (h r (List.mem_cons_self r rs))
      have ht := ih (fun x hx => h x (List.mem_cons_of_mem r hx))
      simp [jsonStringifyArr, hr, ht]

/-- Claim C9: for every row sequence on which the run succeeds, the
concatenated structured-document output is exactly the JSON
serialization of the array of projected row objects — one element per
input row, in the Row Source's emission order — so parsing the output
yields an array whose length equals the row count and whose element
order matches source order. -/
theorem claim_C9 (cols : List Column) (rows : List Row)
    (h : ∀ row ∈ rows, okE (jsonStringifyFields (jsonProjObj cols row)) = true) :
    jsonStringifyVal (JsValue.arr (rows.map (fun row => JsValue.obj (jsonProjObj cols row)))) =
      Except.ok (some (concatStrs (jsonRun cols rows).1))
    ∧ (rows.map (fun row => JsValue.obj (jsonProjObj cols row))).length = rows.length := by
  refine ⟨?_, by simp⟩
  rw [jsonRun_ok cols rows h]
  have hcat : concatStrs ("[" :: (jsonChunksOf cols true rows ++ ["]"])) =
      "[" ++ (joinSep "," (rows.map (fun r => jsonObjStr (jsonProjObj cols r))) ++ "]") := by
    rw [concatStrs_cons, concatStrs_append, concatStrs_jsonChunksOf_true, concatStrs_cons]
    simp [concatStrs, append_empty_str]
  rw [hcat]
  simp [jsonStringifyVal, stringifyArr_map_obj cols rows h, append_assoc_str]

/-- Witness for claim C9 on a concrete two-row export. -/
theorem claim_C9_witness :
    jsonStringifyVal (JsValue.arr (([[("a", JsValue.num 1)], [("a", JsValue.num 2)]] : List Row).map
      (fun row => JsValue.obj (jsonProjObj [⟨"a", "a"⟩] row)))) =
      Except.ok (some (concatStrs
        (jsonRun [⟨"a", "a"⟩] ([[("a", JsValue.num 1)], [("a", JsValue.num 2)]] : List Row)).1)) :=
  (claim_C9 [⟨"a", "a"⟩] ([[("a", JsValue.num 1)], [("a", JsValue.num 2)]] : List Row)
    (by decide)).1

/-! Structure of a successful XML run. -/

/-- The chunk the XML formatter produces for one row when no value
throws. -/
def xmlLineOf (cols : List Column) (row : Row) : String :=
  "  <record>\n" ++ concatStrs (cols.map (fun c =>
    "    <" ++ c.target ++ ">" ++ xmlEscape (normed (getField row c.source)) ++
      "</" ++ c.target ++ ">\n")) ++ "  </record>\n"

theorem xmlElemLine_ok (t : String) (v : JsValue) (h : okE (prepareValue v) = true) :
    xmlElemLine t v =
      Except.ok ("    <" ++ t ++ ">" ++ xmlEscape (normed v) ++ "</" ++ t ++ ">\n") := by
  simp [xmlElemLine, prepareValue_eq_normed v h]

theorem xmlRowChunk_ok (cols : List Column) (row : Row)
    (h : ∀ c ∈ cols, okE (prepareValue (getField row c.source)) = true) :
    xmlRowChunk cols row = Except.ok (xmlLineOf cols row) := by
  have hm := mapM_ok (fun c => xmlElemLine c.target (getField row c.source))
    (fun c => "    <" ++ c.target ++ ">" ++ xmlEscape (normed (getField row c.source)) ++
      "</" ++ c.target ++ ">\n") cols
    (fun c hc => xmlElemLine_ok c.target (getField row c.source) (h c hc))
  unfold xmlRowChunk
  rw [hm]
  rfl

theorem xmlRun_ok (cols : List Column) (rows : List Row)
    (h : ∀ row ∈ rows, ∀ c ∈ cols, okE (prepareValue (getField row c.source)) = true) :
    xmlRun cols rows = (xmlDecl :: (rows.map (xmlLineOf cols) ++ ["</records>"]), true) := by
  have hr := runRows_ok (xmlRowChunk cols) (xmlLineOf cols) rows
    (fun r hrr => xmlRowChunk_ok cols r (h r hrr))
  simp [xmlRun, hr]

theorem head_append_of_cons {l1 l2 : List Char} {a : Char}
    (h : l1.head? = some a) : (l1 ++ l2).head? = some a := by
  cases l1 with
  | nil => simp at h
  | cons x xs => simpa using h

theorem xmlLineOf_head (cols : List Column) (row : Row) :
    (xmlLineOf cols row).data.head? = some ' ' := by
  rw [xmlLineOf, data_append, data_append]
  apply head_append_of_cons
  apply head_append_of_cons
  decide

/-- Claim C4: each string-based encoder emits exactly one opening frame
and exactly one closing frame, in order around all row frames (the CSV
closing frame being empty: no footer exists); in particular a zero-row
export produces exactly the empty-array token for structured-document,
exactly the header line for delimited-text, and declaration plus an
empty root element pair for markup.  The columnar-binary file framing
is owned by the external parquet writer and is not modelled here. -/
theorem claim_C4 :
    (∀ (cols : List Column) (rows : List Row),
        (∀ row ∈ rows, okE (jsonStringifyFields (jsonProjObj cols row)) = true) →
        ∃ body, jsonRun cols rows = ("[" :: (body ++ ["]"]), true)
          ∧ body.length = rows.length
          ∧ ∀ s ∈ body, s ≠ "[" ∧ s ≠ "]")
    ∧ (∀ (cols : List Column) (rows : List Row),
        (∀ row ∈ rows, ∀ c ∈ cols, okE (prepareValue (getField row c.source)) = true) →
        ∃ body, xmlRun cols rows = (xmlDecl :: (body ++ ["</records>"]), true)
          ∧ body.length = rows.length
          ∧ ∀ s ∈ body, s ≠ xmlDecl ∧ s ≠ "</records>")
    ∧ (∀ (cols : List Column) (rows : List Row),
        (∀ row ∈ rows, ∀ c ∈ cols, okE (prepareValue (getField row c.source)) = true) →
        csvRun cols rows = (csvHeader cols :: rows.map (csvLineOf cols), true))
    ∧ (∀ cols : List Column, concatStrs (jsonRun cols []).1 = "[]")
    ∧ (∀ cols : List Column, csvRun cols [] = ([csvHeader cols], true))
    ∧ (∀ cols : List Column, concatStrs (xmlRun cols []).1 = xmlDecl ++ "</records>") := by
  refine ⟨?_, ?_, ?_, ?_, ?_, ?_⟩
  · intro cols rows h
    refine ⟨jsonChunksOf cols true rows, jsonRun_ok cols rows h,
      jsonChunksOf_length cols true rows, ?_⟩
    intro s hs
    have hmem : s ∈ (jsonRowChunks cols true rows).1 := by
      rw [jsonRowChunks_ok cols rows true h]; exact hs
    rcases jsonRowChunks_head cols true rows s hmem with hh | hh
    · constructor
      · intro he; rw [he] at hh; exact absurd hh (by decide)
      · intro he; rw [he] at hh; exact absurd hh (by decide)
    · constructor
      · intro he; rw [he] at hh; exact absurd hh (by decide)
      · intro he; rw [he] at hh; exact absurd hh (by decide)
  · intro cols rows h
    refine ⟨rows.map (xmlLineOf cols), xmlRun_ok cols rows h, by simp, ?_⟩
    intro s hs
    rcases List.mem_map.mp hs with ⟨r, hr, rfl⟩
    have hh := xmlLineOf_head cols r
    constructor
    · intro he; rw [he] at hh; exact absurd hh (by decide)
    · intro he; rw [he] at hh; exact absurd hh (by decide)
  · intro cols rows h
    exact csvRun_ok cols rows h
  · intro cols
    show concatStrs ["[", "]"] = "[]"
    decide
  · intro cols; rfl
  · intro cols
    show concatStrs [xmlDecl, "</records>"] = xmlDecl ++ "</records>"
    rw [concatStrs_cons, concatStrs_cons]
    show xmlDecl ++ ("</records>" ++ "") = xmlDecl ++ "</records>"
    rw [append_empty_str]

/-- Witness for claim C4 on concrete one-row JSON and XML exports. -/
theorem claim_C4_witness :
    (∃ body, jsonRun [⟨"a", "a"⟩] ([[("a", JsValue.num 1)]] : List Row) =
        ("[" :: (body ++ ["]"]), true)
      ∧ body.length = 1 ∧ ∀ s ∈ body, s ≠ "[" ∧ s ≠ "]")
    ∧ (∃ body, xmlRun [⟨"a", "a"⟩] ([[("a", JsValue.num 1)]] : List Row) =
        (xmlDecl :: (body ++ ["</records>"]), true)
      ∧ body.length = 1 ∧ ∀ s ∈ body, s ≠ xmlDecl ∧ s ≠ "</records>") :=
  ⟨claim_C4.1 [⟨"a", "a"⟩] ([[("a", JsValue.num 1)]] : List Row) (by decide),
   claim_C4.2.1 [⟨"a", "a"⟩] ([[("a", JsValue.num 1)]] : List Row) (by decide)⟩

/-! Claim C10: undefined-valued projections in the JSON formatter. -/

/-- Discriminator for the undefined value. -/
def isUndef : JsValue → Bool
  | JsValue.undefined => true
  | _ => false

theorem isUndef_eq (v : JsValue) (h : isUndef v = true) : v = JsValue.undefined := by
  cases v <;> simp_all [isUndef]

theorem jsonStringifyFields_undef_cons (k : String) (fs : List (String × JsValue)) :
    jsonStringifyFields ((k, JsValue.undefined) :: fs) = jsonStringifyFields fs := by
  cases he : jsonStringifyFields fs with
  | error e => simp only [jsonStringifyFields, he]; rfl
  | ok xs => simp only [jsonStringifyFields, he]; rfl

theorem jsonStringifyFields_cons_congr (k : String) (v : JsValue)
    (l1 l2 : List (String × JsValue))
    (h : jsonStringifyFields l1 = jsonStringifyFields l2) :
    jsonStringifyFields ((k, v) :: l1) = jsonStringifyFields ((k, v) :: l2) := by
  cases hv : jsonStringifyVal v with
  | error e => simp [jsonStringifyFields, hv]
  | ok s? => simp [jsonStringifyFields, hv, h]

/-- Claim C10: a projected source field that is absent (undefined) is
dropped entirely from the serialized row object of the JSON formatter —
the object serializes exactly as if the column were not projected at
all, and a lone undefined property serializes to no entry — while the
string-based encoders emit an empty field for the same value: the CSV
formatter an empty quoted field, the XML formatter the same element it
would emit for the empty string. -/
theorem claim_C10 (cols : List Column) (row : Row) :
    jsonStringifyFields (jsonProjObj cols row) =
      jsonStringifyFields (jsonProjObj
        (cols.filter (fun c => !(isUndef (getField row c.source)))) row)
    ∧ (∀ k : String, jsonStringifyFields [(k, JsValue.undefined)] = Except.ok [])
    ∧ (∀ c ∈ cols, isUndef (getField row c.source) = true →
        csvField (getField row c.source) = Except.ok "\"\""
        ∧ xmlElemLine c.target (getField row c.source) =
            xmlElemLine c.target (JsValue.str "")) := by
  refine ⟨?_, fun k => rfl, ?_⟩
  · induction cols with
    | nil => rfl
    | cons c cs ih =>
        cases hv : isUndef (getField row c.source) with
        | true =>
            have hu := isUndef_eq _ hv
            have hfil : (c :: cs).filter (fun c => !(isUndef (getField row c.source))) =
                cs.filter (fun c => !(isUndef (getField row c.source))) := by
              simp [List.filter_cons, hv]
            rw [hfil]
            show jsonStringifyFields ((c.target, getField row c.source) :: jsonProjObj cs row) = _
            rw [hu, jsonStringifyFields_undef_cons]
            exact ih
        | false =>
            have hfil : (c :: cs).filter (fun c => !(isUndef (getField row c.source))) =
                c :: cs.filter (fun c => !(isUndef (getField row c.source))) := by
              simp [List.filter_cons, hv]
            rw [hfil]
            show jsonStringifyFields ((c.target, getField row c.source) :: jsonProjObj cs row) =
              jsonStringifyFields ((c.target, getField row c.source) ::
                jsonProjObj (cs.filter (fun c => !(isUndef (getField row c.source)))) row)
            exact jsonStringifyFields_cons_congr _ _ _ _ ih
  · intro c hc hu
    rw [isUndef_eq _ hu]
    exact ⟨rfl, rfl⟩

/-! Claim C7: abort, single release, and silence after an error. -/

theorem sinkWrites_shape (sinkOk : Nat → Bool) (cs : List String) : ∀ n : Nat,
    ∃ ws : List String, (sinkWrites sinkOk n cs).1 = ws.map Event.sinkWrite ++
      (if (sinkWrites sinkOk n cs).2.2 then [] else [Event.errorRaised]) := by
  induction cs with
  | nil => intro n; exact ⟨[], rfl⟩
  | cons c cs ih =>
      intro n
      by_cases h : sinkOk n = true
      · rcases ih (n + 1) with ⟨ws, hws⟩
        refine ⟨c :: ws, ?_⟩
        simp [sinkWrites, h, hws]
      · refine ⟨[], ?_⟩
        simp [sinkWrites, h]

theorem pipeRun_shape {σ : Type} (step : σ → Row → Except Unit (σ × List String))
    (finish : σ → Except Unit (List String)) (sinkOk : Nat → Bool)
    (items : List SourceItem) : ∀ (s : σ) (n : Nat),
    ∃ (ws : List String) (b : Bool), pipeRun step finish sinkOk s n items =
      ws.map Event.sinkWrite ++ (if b then [] else [Event.errorRaised]) := by
  induction items with
  | nil =>
      intro s n
      cases hf : finish s with
      | error e => exact ⟨[], false, by simp [pipeRun, hf]⟩
      | ok cs =>
          rcases sinkWrites_shape sinkOk cs n with ⟨ws, hws⟩
          exact ⟨ws, (sinkWrites sinkOk n cs).2.2, by simp [pipeRun, hf, hws]⟩
  | cons it items ih =>
      intro s n
      cases it with
      | srcError => exact ⟨[], false, by simp [pipeRun]⟩
      | row r =>
          cases hs : step s r with
          | error e => exact ⟨[], false, by simp [pipeRun, hs]⟩
          | ok p =>
              cases p with
              | mk s' cs =>
                  rcases sinkWrites_shape sinkOk cs n with ⟨ws1, hws⟩
                  by_cases hb : (sinkWrites sinkOk n cs).2.2 = true
                  · rcases ih s' (sinkWrites sinkOk n cs).2.1 with ⟨ws2, b2, h2⟩
                    refine ⟨ws1 ++ ws2, b2, ?_⟩
                    rw [hb, if_pos rfl, List.append_nil] at hws
                    simp [pipeRun, hs, hb, hws, h2, List.map_append, List.append_assoc]
                  · refine ⟨ws1, false, ?_⟩
                    rw [if_neg hb] at hws
                    simp [pipeRun, hs, hb, hws]

theorem count_release_writes (ws : List String) (l : List Event) :
    (ws.map Event.sinkWrite ++ l).count Event.release = l.count Event.release := by
  induction ws with
  | nil => rfl
  | cons w ws ih =>
      rw [List.map_cons, List.cons_append, List.count_cons_of_ne (by simp), ih]

theorem noWriteAfterErr_writes (ws : List String) (l : List Event) :
    noWriteAfterErr (ws.map Event.sinkWrite ++ l) = noWriteAfterErr l := by
  induction ws with
  | nil => rfl
  | cons w ws ih => simp [noWriteAfterErr, ih]

/-- Claim C7: on every run of the export pipeline — for any formatter
state machine, any source item sequence (including a source failure at
any point), and any sink acceptance pattern — an error at any stage
stops the trace at once (after an error event no sink write ever
occurs, so after a Row Source failure mid-export the Sink receives no
further writes and no per-row skip-and-continue exists), and the
finally block releases the held client exactly once on both the
success path and every failure path. -/
theorem claim_C7 {σ : Type} (start : List String)
    (step : σ → Row → Except Unit (σ × List String))
    (finish : σ → Except Unit (List String)) (sinkOk : Nat → Bool)
    (init : σ) (items : List SourceItem) :
    (measureExport start step finish sinkOk init items).count Event.release = 1
    ∧ noWriteAfterErr (measureExport start step finish sinkOk init items) = true := by
  rcases sinkWrites_shape sinkOk start 0 with ⟨ws0, hws0⟩
  by_cases hb0 : (sinkWrites sinkOk 0 start).2.2 = true
  · rcases pipeRun_shape step finish sinkOk items init (sinkWrites sinkOk 0 start).2.1
      with ⟨ws, b, hp⟩
    have hm : measureExport start step finish sinkOk init items =
        (ws0 ++ ws).map Event.sinkWrite ++
          ((if b then [] else [Event.errorRaised]) ++ [Event.release]) := by
      rw [measureExport]
      simp only [hb0, if_true, hws0, hb0, hp]
      simp [List.map_append, List.append_assoc]
    rw [hm]
    constructor
    · rw [count_release_writes]
      cases b <;> decide
    · rw [noWriteAfterErr_writes]
      cases b <;> decide
  · have hm : measureExport start step finish sinkOk init items =
        ws0.map Event.sinkWrite ++ ([Event.errorRaised] ++ [Event.release]) := by
      rw [measureExport]
      simp only [hb0, if_false]
      simp [hb0] at hws0
      simp [hb0, hws0, List.append_assoc]
    rw [hm]
    constructor
    · rw [count_release_writes]; decide
    · rw [noWriteAfterErr_writes]; decide

/-- Witness for claim C10 at a concrete row missing the projected
source field. -/
theorem claim_C10_witness :
    csvField (getField ([("b", JsValue.num 1)] : Row) "a") = Except.ok "\"\""
    ∧ xmlElemLine "a" (getField ([("b", JsValue.num 1)] : Row) "a") =
        xmlElemLine "a" (JsValue.str "") :=
  (claim_C10 [⟨"a", "a"⟩] ([("b", JsValue.num 1)] : Row)).2.2
    ⟨"a", "a"⟩ (List.mem_cons_self _ _) (by decide)

/-! Claim C8: columnar-binary schema derivation and normalization. -/

/-- Claim C8: the parquet formatter's constructor derives a schema
declaring every target column of the projection as an optional
string-typed (UTF8) field, and the record handed to the writer for a
row carries, for every projected column, precisely the normalizer's
output for the source value — native numeric or boolean typing is not
preserved. -/
theorem claim_C8 (cols : List Column) (row : Row)
    (h : ∀ c ∈ cols, okE (prepareValue (getField row c.source)) = true) :
    (∀ p ∈ parquetSchemaDefs cols, p.2.type = "UTF8" ∧ p.2.optional = true)
    ∧ (∀ c ∈ cols,
        (c.target, ({ type := "UTF8", optional := true } : ParquetFieldDef)) ∈
          parquetSchemaDefs cols)
    ∧ parquetRowRecord cols row =
        Except.ok (cols.map (fun c => (c.target, normed (getField row c.source)))) := by
  refine ⟨?_, ?_, ?_⟩
  · intro p hp
    rcases List.mem_map.mp hp with ⟨c, _, rfl⟩
    exact ⟨rfl, rfl⟩
  · intro c hc
    exact List.mem_map.mpr ⟨c, hc, rfl⟩
  · exact mapM_ok _ _ cols
      (fun c hc => by rw [prepareValue_eq_normed (getField row c.source) (h c hc)])

/-- Witness for claim C8 at a concrete one-column projection and a row
holding a number, which reaches the writer as its textual form. -/
theorem claim_C8_witness :
    parquetRowRecord [⟨"a", "a"⟩] ([("a", JsValue.num 5)] : Row) =
      Except.ok [("a", "5")] := by
  have h := (claim_C8 [⟨"a", "a"⟩] ([("a", JsValue.num 5)] : Row) (by decide)).2.2
  exact h.trans rfl

end StreamExport
